import Mathlib

/-!
Shallow embedding of the minimal ray tracer (`src/main.cpp`).

`float` values are modelled as real numbers; `glm::vec3` becomes `Vec3`,
`std::optional<Intersection>` becomes `Option Intersection`.  The C++
`std::numeric_limits<float>::max()` initializer of the running minimum is the
exact real value of `FLT_MAX`, namely `2^128 - 2^104`.  The `-1U` sentinel of
`trace` is the value `4294967295` of a 32-bit unsigned `-1`.
-/

noncomputable section

namespace RayTracer

/-- `glm::vec3`, with real components. -/
structure Vec3 where
  x : ℝ
  y : ℝ
  z : ℝ

instance : Add Vec3 := ⟨fun a b => ⟨a.x + b.x, a.y + b.y, a.z + b.z⟩⟩
instance : Sub Vec3 := ⟨fun a b => ⟨a.x - b.x, a.y - b.y, a.z - b.z⟩⟩
instance : Neg Vec3 := ⟨fun a => ⟨-a.x, -a.y, -a.z⟩⟩
instance : SMul ℝ Vec3 := ⟨fun r v => ⟨r * v.x, r * v.y, r * v.z⟩⟩

/-- `glm::dot`. -/
def dot (a b : Vec3) : ℝ := a.x * b.x + a.y * b.y + a.z * b.z

/-- `glm::length`. -/
def length (v : Vec3) : ℝ := Real.sqrt (dot v v)

/-- `glm::normalize` (undefined — division by zero — on the zero vector,
which Lean totalizes as `0⁻¹ = 0`; the callers only use nonzero vectors). -/
def normalize (v : Vec3) : Vec3 := (1 / length v) • v

/-- `glm::reflect i n = i - 2 * dot n i * n`. -/
def reflect (i n : Vec3) : Vec3 := i - (2 * dot n i) • n

/-- `struct Sphere`. -/
structure Sphere where
  radius : ℝ
  center : Vec3

/-- `struct Ray`. -/
structure Ray where
  origin : Vec3
  direction : Vec3

/-- `struct Intersection`. -/
structure Intersection where
  sphere_index : ℕ
  distance : ℝ

/-- `std::numeric_limits<float>::max() = (2 - 2⁻²³)·2¹²⁷`, as an exact real. -/
def floatMax : ℝ := 2 ^ 128 - 2 ^ 104

/-- The `-1U` invalid-index sentinel used by `trace`. -/
def sentinel : ℕ := 4294967295

/-- The per-sphere body of the loop in `trace` (`main.cpp:42-53`): the
rejection tests and, if the sphere passes, the candidate hit distance. -/
def sphereCandidate (ray : Ray) (s : Sphere) : Option ℝ :=
  let oc := s.center - ray.origin
  let dt := dot ray.direction oc
  if dt < 0 then none
  else
    let d2 := dot oc oc - dt * dt
    let r2 := s.radius * s.radius
    if d2 > r2 then none
    else some (dt - Real.sqrt (r2 - d2))

/-- The running-minimum loop of `trace` (`main.cpp:41-58`), with `i` the index
of the head of the remaining list and `nearest` the accumulator. -/
def traceLoop (ray : Ray) : List Sphere → ℕ → Intersection → Intersection
  | [], _, nearest => nearest
  | s :: rest, i, nearest =>
    match sphereCandidate ray s with
    | none => traceLoop ray rest (i + 1) nearest
    | some d =>
      traceLoop ray rest (i + 1) (if d < nearest.distance then ⟨i, d⟩ else nearest)

/-- `trace` (`main.cpp:38-66`). -/
def trace (ray : Ray) (spheres : List Sphere) : Option Intersection :=
  let nearest := traceLoop ray spheres 0 ⟨sentinel, floatMax⟩
  if nearest.sphere_index ≠ sentinel then some nearest else none

/-- `std::atan2` (C convention; signed zeros are not modelled). -/
def atan2 (y x : ℝ) : ℝ :=
  if 0 < x then Real.arctan (y / x)
  else if x < 0 then
    (if 0 ≤ y then Real.arctan (y / x) + Real.pi else Real.arctan (y / x) - Real.pi)
  else if 0 < y then Real.pi / 2
  else if y < 0 then -(Real.pi / 2)
  else 0

/-- `static_cast<int>` on a `float`: truncation toward zero. -/
def toIntC (r : ℝ) : ℤ := if 0 ≤ r then ⌊r⌋ else ⌈r⌉

/-- `texture.x` computed from the surface normal (`main.cpp:79`). -/
def tex_u (n : Vec3) : ℝ := (1 + atan2 n.z n.x / 3.1415) * 0.5

/-- `texture.y` computed from the surface normal (`main.cpp:80`). -/
def tex_v (n : Vec3) : ℝ := Real.arccos n.y / 3.1415

/-- The checker `pattern` boolean (`main.cpp:81`); C++ `%` is truncated
modulo, `Int.tmod`. -/
def patternOn (n : Vec3) : Prop :=
  Int.tmod (toIntC (tex_u n * 10) + toIntC (tex_v n * 10)) 2 = 0

instance (n : Vec3) : Decidable (patternOn n) := Int.decEq _ _

/-- The factor `pattern ? 0.5F : 1.0F`. -/
def patternFactor (n : Vec3) : ℝ := if patternOn n then 0.5 else 1.0

/-- The constant `light_dir` (`main.cpp:76`). -/
def lightDir : Vec3 := normalize ⟨1, -1, -1⟩

/-- The constant `ambient` color (`main.cpp:82`). -/
def ambient : Vec3 := ⟨0.1, 0.1, 0.1⟩

/-- glm vector-plus-scalar, componentwise (used at `main.cpp:94`). -/
def addScalar (v : Vec3) (s : ℝ) : Vec3 := ⟨v.x + s, v.y + s, v.z + s⟩

/-- `ray_cast` (`main.cpp:68-98`).  The unguarded `spheres[index]` lookup is
modelled with `List.getD` and a dummy sphere (claim C9 shows the dummy is
never consulted). -/
def ray_cast (ray : Ray) (spheres : List Sphere) : Vec3 :=
  match trace ray spheres with
  | none => ⟨0, 0, 0⟩
  | some inter =>
    let sphere := spheres.getD inter.sphere_index ⟨0, ⟨0, 0, 0⟩⟩
    let point := ray.origin + inter.distance • ray.direction
    let normal := normalize (point - sphere.center)
    match trace ⟨point, -lightDir⟩ spheres with
    | some _ => patternFactor normal • ambient
    | none =>
      let diffuse := max 0 (dot normal (-lightDir)) * 0.8
      let reflection := reflect ray.direction normal
      let specular := (max 0 (dot reflection (-lightDir))) ^ 32 * 0.5
      addScalar (patternFactor normal • addScalar ambient diffuse) specular

/-- The camera ray of pixel `(x, y)` (`main.cpp:111-115`), with the fixed
resolution lifted to parameters `w`, `h` as §6 of the spec directs. -/
def pixelRay (w h x y : ℕ) : Ray :=
  let aspect_ratio : ℝ := (w : ℝ) / (h : ℝ)
  let fov : ℝ := 3.1415 / 3
  { origin := ⟨0, 0, 0⟩
    direction := normalize ⟨(2 * ((x : ℝ) + 0.5) / (w : ℝ) - 1) * aspect_ratio,
                            1 - 2 * ((y : ℝ) + 0.5) / (h : ℝ),
                            -1 / Real.tan (fov / 2)⟩ }

/-- The pixel coordinates in the order the nested loops of `render` visit
them (row-major, `y` outer). -/
def pixelList (w h : ℕ) : List (ℕ × ℕ) :=
  (List.range h).flatMap fun y => (List.range w).map fun x => (x, y)

/-- One buffer write `image[y * width + x] = ray_cast(ray, spheres)`
(`main.cpp:117`). -/
def renderWrite (spheres : List Sphere) (w h : ℕ) (buf : List Vec3)
    (p : ℕ × ℕ) : List Vec3 :=
  buf.set (p.2 * w + p.1) (ray_cast (pixelRay w h p.1 p.2) spheres)

/-- `render` (`main.cpp:100-125`) as the fold of the buffer writes over the
pixels in loop order, starting from the value-initialized (all zero) buffer. -/
def render (spheres : List Sphere) (w h : ℕ) : List Vec3 :=
  (pixelList w h).foldl (renderWrite spheres w h) (List.replicate (w * h) ⟨0, 0, 0⟩)

/-- The fixed-resolution render the program performs. -/
def renderMain (spheres : List Sphere) : List Vec3 := render spheres 1280 720

/-- A concrete unit surface normal, slightly below the negative `x` axis in
the `xz` plane, whose `atan2` lies in `(-π, -3.1415)`: used to separate the
code's truncation-toward-zero from the spec's `floor` in the checker
pattern. -/
def cexNormal : Vec3 :=
  ⟨-(1 / Real.sqrt (1 + (1 / 20000) ^ 2)), 0,
   -((1 / 20000) / Real.sqrt (1 + (1 / 20000) ^ 2))⟩

/-! ## Basic component lemmas -/

@[simp] theorem Vec3.mk_x (a b c : ℝ) : (Vec3.mk a b c).x = a := rfl

@[simp] theorem Vec3.mk_y (a b c : ℝ) : (Vec3.mk a b c).y = b := rfl

@[simp] theorem Vec3.mk_z (a b c : ℝ) : (Vec3.mk a b c).z = c := rfl

@[simp] theorem Vec3.add_def (a b : Vec3) :
    a + b = ⟨a.x + b.x, a.y + b.y, a.z + b.z⟩ := rfl

@[simp] theorem Vec3.sub_def (a b : Vec3) :
    a - b = ⟨a.x - b.x, a.y - b.y, a.z - b.z⟩ := rfl

@[simp] theorem Vec3.neg_def (a : Vec3) : -a = ⟨-a.x, -a.y, -a.z⟩ := rfl

@[simp] theorem Vec3.smul_def (r : ℝ) (v : Vec3) :
    r • v = ⟨r * v.x, r * v.y, r * v.z⟩ := rfl

@[simp] theorem Intersection.mk_index (i : ℕ) (d : ℝ) :
    (Intersection.mk i d).sphere_index = i := rfl

@[simp] theorem Intersection.mk_distance (i : ℕ) (d : ℝ) :
    (Intersection.mk i d).distance = d := rfl

example :
    trace ⟨⟨0, 0, 0⟩, ⟨0, 0, -1⟩⟩ [⟨1, ⟨0, 0, -4⟩⟩] = some ⟨0, 3⟩ := by
  norm_num [trace, traceLoop, sphereCandidate, dot, sentinel, floatMax, Real.sqrt_one]

/-! ## The running-minimum loop of `trace` -/

/-- Full characterization of the loop of `trace`: either no candidate beats the
accumulator (which is then returned unchanged), or the result is the first
sphere attaining the strict minimum of the candidates that beat the
accumulator. -/
theorem traceLoop_spec (ray : Ray) :
    ∀ (l : List Sphere) (k : ℕ) (acc : Intersection),
      (traceLoop ray l k acc = acc ∧
        ∀ m (hm : m < l.length) d', sphereCandidate ray l[m] = some d' →
          acc.distance ≤ d')
      ∨ (∃ m, ∃ (hm : m < l.length), ∃ d,
          sphereCandidate ray l[m] = some d ∧
          traceLoop ray l k acc = ⟨k + m, d⟩ ∧
          d < acc.distance ∧
          (∀ m' (hm' : m' < l.length) d',
            sphereCandidate ray l[m'] = some d' → d ≤ d') ∧
          (∀ m' (hm' : m' < l.length) d', m' < m →
            sphereCandidate ray l[m'] = some d' → d < d')) := by
  intro l
  induction l with
  | nil =>
    intro k acc
    exact Or.inl ⟨rfl, by intro m hm; simp at hm⟩
  | cons s t ih =>
    intro k acc
    rcases hc : sphereCandidate ray s with _ | d0
    · -- head rejected
      rcases ih (k + 1) acc with ⟨heq, hmin⟩ | ⟨m, hm, d, hcd, heq, hlt, hmin, htie⟩
      · refine Or.inl ⟨by simp [traceLoop, hc, heq], ?_⟩
        intro m hm d' hcd'
        match m with
        | 0 => rw [List.getElem_cons_zero, hc] at hcd'; cases hcd'
        | m + 1 =>
          exact hmin m (by simpa using hm) d' (by simpa using hcd')
      · refine Or.inr ⟨m + 1, by simpa using hm, d, by simpa using hcd, ?_, hlt, ?_, ?_⟩
        · rw [show k + (m + 1) = (k + 1) + m by omega]
          simpa [traceLoop, hc] using heq
        · intro m' hm' d' hcd'
          match m' with
          | 0 => rw [List.getElem_cons_zero, hc] at hcd'; cases hcd'
          | m' + 1 =>
            exact hmin m' (by simpa using hm') d' (by simpa using hcd')
        · intro m' hm' d' hlt' hcd'
          match m' with
          | 0 => rw [List.getElem_cons_zero, hc] at hcd'; cases hcd'
          | m' + 1 =>
            exact htie m' (by simpa using hm') d' (by omega) (by simpa using hcd')
    · -- head passed with candidate d0
      by_cases h0 : d0 < acc.distance
      · -- head improves the accumulator
        rcases ih (k + 1) ⟨k, d0⟩ with ⟨heq, hmin⟩ | ⟨m, hm, d, hcd, heq, hlt, hmin, htie⟩
        · refine Or.inr ⟨0, by simp, d0, by simpa using hc, ?_, h0, ?_, ?_⟩
          · simpa [traceLoop, hc, if_pos h0] using heq
          · intro m' hm' d' hcd'
            match m' with
            | 0 =>
              rw [List.getElem_cons_zero, hc] at hcd'
              cases hcd'; exact le_refl _
            | m' + 1 =>
              simpa using hmin m' (by simpa using hm') d' (by simpa using hcd')
          · intro m' hm' d' hlt' hcd'; omega
        · refine Or.inr ⟨m + 1, by simpa using hm, d, by simpa using hcd, ?_,
            lt_trans hlt h0, ?_, ?_⟩
          · rw [show k + (m + 1) = (k + 1) + m by omega]
            simpa [traceLoop, hc, if_pos h0] using heq
          · intro m' hm' d' hcd'
            match m' with
            | 0 =>
              rw [List.getElem_cons_zero, hc] at hcd'
              cases hcd'
              exact le_of_lt (by simpa using hlt)
            | m' + 1 =>
              exact hmin m' (by simpa using hm') d' (by simpa using hcd')
          · intro m' hm' d' hlt' hcd'
            match m' with
            | 0 =>
              rw [List.getElem_cons_zero, hc] at hcd'
              cases hcd'
              simpa using hlt
            | m' + 1 =>
              exact htie m' (by simpa using hm') d' (by omega) (by simpa using hcd')
      · -- head does not improve the accumulator
        rcases ih (k + 1) acc with ⟨heq, hmin⟩ | ⟨m, hm, d, hcd, heq, hlt, hmin, htie⟩
        · refine Or.inl ⟨by simp [traceLoop, hc, if_neg h0, heq], ?_⟩
          intro m hm d' hcd'
          match m with
          | 0 =>
            rw [List.getElem_cons_zero, hc] at hcd'
            cases hcd'; exact le_of_not_lt h0
          | m + 1 =>
            exact hmin m (by simpa using hm) d' (by simpa using hcd')
        · refine Or.inr ⟨m + 1, by simpa using hm, d, by simpa using hcd, ?_, hlt, ?_, ?_⟩
          · rw [show k + (m + 1) = (k + 1) + m by omega]
            simpa [traceLoop, hc, if_neg h0] using heq
          · intro m' hm' d' hcd'
            match m' with
            | 0 =>
              rw [List.getElem_cons_zero, hc] at hcd'
              cases hcd'
              exact le_of_lt (lt_of_lt_of_le hlt (le_of_not_lt h0))
            | m' + 1 =>
              exact hmin m' (by simpa using hm') d' (by simpa using hcd')
          · intro m' hm' d' hlt' hcd'
            match m' with
            | 0 =>
              rw [List.getElem_cons_zero, hc] at hcd'
              cases hcd'
              exact lt_of_lt_of_le hlt (le_of_not_lt h0)
            | m' + 1 =>
              exact htie m' (by simpa using hm') d' (by omega) (by simpa using hcd')

/-- What holds whenever `trace` returns an intersection: the index is in
bounds, the recorded distance is that sphere's candidate, it is below the
`FLT_MAX` initializer, it is a minimum over all candidates, and every earlier
sphere's candidate is strictly larger. -/
theorem trace_some_spec (ray : Ray) (spheres : List Sphere) (inter : Intersection)
    (h : trace ray spheres = some inter) :
    ∃ (hi : inter.sphere_index < spheres.length),
      sphereCandidate ray spheres[inter.sphere_index] = some inter.distance ∧
      inter.distance < floatMax ∧
      (∀ j (hj : j < spheres.length) d',
        sphereCandidate ray spheres[j] = some d' → inter.distance ≤ d') ∧
      (∀ j (hj : j < spheres.length) d', j < inter.sphere_index →
        sphereCandidate ray spheres[j] = some d' → inter.distance < d') := by
  simp only [trace] at h
  rcases traceLoop_spec ray spheres 0 ⟨sentinel, floatMax⟩ with ⟨heq, _⟩ |
    ⟨m, hm, d, hcd, heq, hlt, hmin, htie⟩
  · rw [heq] at h
    simp at h
  · rw [heq] at h
    split at h
    · obtain rfl : Intersection.mk (0 + m) d = inter := Option.some.inj h
      simp only [Intersection.mk_index, Intersection.mk_distance, Nat.zero_add]
      refine ⟨hm, hcd, by simpa using hlt, fun j hj d' hc => hmin j hj d' hc,
        fun j hj d' hji hc => htie j hj d' hji hc⟩
    · cases h

/-- If some sphere passes the per-sphere test with a candidate distance below
`FLT_MAX` (and the scene is small enough for the 32-bit index not to collide
with the sentinel), `trace` returns an intersection. -/
theorem trace_isSome_of_candidate (ray : Ray) (spheres : List Sphere)
    (hlen : spheres.length ≤ sentinel)
    (j : ℕ) (hj : j < spheres.length) (d' : ℝ)
    (hc : sphereCandidate ray spheres[j] = some d') (hd : d' < floatMax) :
    ∃ inter, trace ray spheres = some inter := by
  rcases traceLoop_spec ray spheres 0 ⟨sentinel, floatMax⟩ with ⟨heq, hmin⟩ |
    ⟨m, hm, d, hcd, heq, hlt, hmin, htie⟩
  · have := hmin j hj d' hc
    simp only [Intersection.mk_distance] at this
    exact absurd this (not_le.mpr hd)
  · refine ⟨⟨0 + m, d⟩, ?_⟩
    simp only [trace]
    rw [heq]
    have hne : m ≠ sentinel := by omega
    simp [hne]

/-- C1: `trace` returns the intersection with the minimum candidate distance
over all spheres passing the per-sphere test, with first-in-scene-order
winning exact ties (the strict `<` comparison keeps the first found) — as
amended: the running minimum is initialized to `FLT_MAX` (not `+∞`), so only
candidates strictly below `FLT_MAX` are ever returned, and the scene must
have at most `2³² - 1` spheres for the `-1U` sentinel to be distinguishable. -/
theorem trace_returns_min_candidate (ray : Ray) (spheres : List Sphere)
    (hlen : spheres.length ≤ sentinel) :
    (∀ i d, trace ray spheres = some ⟨i, d⟩ →
      ∃ (hi : i < spheres.length),
        sphereCandidate ray spheres[i] = some d ∧ d < floatMax ∧
        (∀ j (hj : j < spheres.length) d',
          sphereCandidate ray spheres[j] = some d' → d ≤ d') ∧
        (∀ j (hj : j < spheres.length) d', j < i →
          sphereCandidate ray spheres[j] = some d' → d < d')) ∧
    (∀ j (hj : j < spheres.length) d',
      sphereCandidate ray spheres[j] = some d' → d' < floatMax →
      ∃ inter, trace ray spheres = some inter) := by
  constructor
  · intro i d h
    simpa using trace_some_spec ray spheres ⟨i, d⟩ h
  · intro j hj d' hc hd
    exact trace_isSome_of_candidate ray spheres hlen j hj d' hc hd

/-- Witness for C1 at a concrete scene of two spheres on the same ray, the
nearer one second: `trace` returns the second sphere. -/
theorem trace_returns_min_candidate_witness :
    [(⟨1, ⟨0, 0, -10⟩⟩ : Sphere), ⟨1, ⟨0, 0, -4⟩⟩].length ≤ sentinel ∧
    (∀ i d, trace ⟨⟨0, 0, 0⟩, ⟨0, 0, -1⟩⟩ [⟨1, ⟨0, 0, -10⟩⟩, ⟨1, ⟨0, 0, -4⟩⟩] = some ⟨i, d⟩ →
      ∃ (hi : i < [(⟨1, ⟨0, 0, -10⟩⟩ : Sphere), ⟨1, ⟨0, 0, -4⟩⟩].length),
        sphereCandidate ⟨⟨0, 0, 0⟩, ⟨0, 0, -1⟩⟩
            [(⟨1, ⟨0, 0, -10⟩⟩ : Sphere), ⟨1, ⟨0, 0, -4⟩⟩][i] = some d ∧ d < floatMax ∧
        (∀ j (hj : j < [(⟨1, ⟨0, 0, -10⟩⟩ : Sphere), ⟨1, ⟨0, 0, -4⟩⟩].length) d',
          sphereCandidate ⟨⟨0, 0, 0⟩, ⟨0, 0, -1⟩⟩
              [(⟨1, ⟨0, 0, -10⟩⟩ : Sphere), ⟨1, ⟨0, 0, -4⟩⟩][j] = some d' → d ≤ d') ∧
        (∀ j (hj : j < [(⟨1, ⟨0, 0, -10⟩⟩ : Sphere), ⟨1, ⟨0, 0, -4⟩⟩].length) d', j < i →
          sphereCandidate ⟨⟨0, 0, 0⟩, ⟨0, 0, -1⟩⟩
              [(⟨1, ⟨0, 0, -10⟩⟩ : Sphere), ⟨1, ⟨0, 0, -4⟩⟩][j] = some d' → d < d')) ∧
    trace ⟨⟨0, 0, 0⟩, ⟨0, 0, -1⟩⟩ [⟨1, ⟨0, 0, -10⟩⟩, ⟨1, ⟨0, 0, -4⟩⟩] = some ⟨1, 3⟩ := by
  have hlen : [(⟨1, ⟨0, 0, -10⟩⟩ : Sphere), ⟨1, ⟨0, 0, -4⟩⟩].length ≤ sentinel := by
    simp [sentinel]
  refine ⟨hlen, (trace_returns_min_candidate ⟨⟨0, 0, 0⟩, ⟨0, 0, -1⟩⟩ _ hlen).1, ?_⟩
  norm_num [trace, traceLoop, sphereCandidate, dot, sentinel, floatMax, Real.sqrt_one]

/-- Counterexample to C1 as stated: a (degenerate-radius) sphere whose
candidate distance is exactly `FLT_MAX` passes the per-sphere test, yet
`trace` returns no intersection at all, because the running minimum starts at
`FLT_MAX`, not at positive infinity as the claim says. -/
theorem trace_returns_min_candidate_cex :
    sphereCandidate ⟨⟨0, 0, 0⟩, ⟨0, 0, -1⟩⟩ ⟨0, ⟨0, 0, -floatMax⟩⟩ = some floatMax ∧
    trace ⟨⟨0, 0, 0⟩, ⟨0, 0, -1⟩⟩ [⟨0, ⟨0, 0, -floatMax⟩⟩] = none := by
  constructor
  · norm_num [sphereCandidate, dot, floatMax, Real.sqrt_zero]
  · norm_num [trace, traceLoop, sphereCandidate, dot, sentinel, floatMax, Real.sqrt_zero]

/-- C9: whenever `trace` returns an intersection its `sphere_index` is a
valid index into the sphere list, so the shader's unguarded lookup
`spheres[intersection->sphere_index]` is in bounds. -/
theorem trace_index_in_bounds (ray : Ray) (spheres : List Sphere)
    (inter : Intersection) (h : trace ray spheres = some inter) :
    inter.sphere_index < spheres.length := by
  obtain ⟨hi, -⟩ := trace_some_spec ray spheres inter h
  exact hi

/-- Witness for C9 at a concrete successful trace. -/
theorem trace_index_in_bounds_witness :
    trace ⟨⟨0, 0, 0⟩, ⟨0, 0, -1⟩⟩ [⟨1, ⟨0, 0, -4⟩⟩] = some ⟨0, 3⟩ ∧
    (Intersection.mk 0 3).sphere_index < [(⟨1, ⟨0, 0, -4⟩⟩ : Sphere)].length := by
  have he : trace ⟨⟨0, 0, 0⟩, ⟨0, 0, -1⟩⟩ [⟨1, ⟨0, 0, -4⟩⟩] = some ⟨0, 3⟩ := by
    norm_num [trace, traceLoop, sphereCandidate, dot, sentinel, floatMax, Real.sqrt_one]
  exact ⟨he, trace_index_in_bounds _ _ _ he⟩

/-! ## The per-sphere test -/

/-- The squared distance from the point at parameter `t` along a unit-direction
ray to a point `v`, as a quadratic in `t`. -/
theorem ray_point_dist_sq (ray : Ray) (v : Vec3)
    (hunit : dot ray.direction ray.direction = 1) (t : ℝ) :
    dot (ray.origin + t • ray.direction - v) (ray.origin + t • ray.direction - v) =
      t ^ 2 - 2 * t * dot ray.direction (v - ray.origin) +
        dot (v - ray.origin) (v - ray.origin) := by
  simp only [dot, Vec3.add_def, Vec3.sub_def, Vec3.smul_def, Vec3.mk_x, Vec3.mk_y,
    Vec3.mk_z] at hunit ⊢
  linear_combination (t ^ 2) * hunit

/-- Unfolding of a successful per-sphere test: both rejections failed and the
candidate is `proj - sqrt(r² - d2)`. -/
theorem sphereCandidate_some (ray : Ray) (s : Sphere) (c : ℝ)
    (h : sphereCandidate ray s = some c) :
    0 ≤ dot ray.direction (s.center - ray.origin) ∧
    dot (s.center - ray.origin) (s.center - ray.origin) -
        dot ray.direction (s.center - ray.origin) *
          dot ray.direction (s.center - ray.origin) ≤
      s.radius * s.radius ∧
    c = dot ray.direction (s.center - ray.origin) -
        Real.sqrt (s.radius * s.radius -
          (dot (s.center - ray.origin) (s.center - ray.origin) -
            dot ray.direction (s.center - ray.origin) *
              dot ray.direction (s.center - ray.origin))) := by
  simp only [sphereCandidate] at h
  split_ifs at h with h1 h2
  exact ⟨not_lt.mp h1, not_lt.mp h2, (Option.some.inj h).symm⟩

/-- C2: the per-sphere test rejects exactly when the center projects behind
the origin (`proj < 0`) or the ray line passes farther than the radius
(`d2 > r²`); a accepted candidate is `proj - sqrt(r² - d2)`, it lies on the
sphere surface, and it is the smaller root of the sphere quadratic: no other
surface point of that sphere along the ray line has a smaller parameter. -/
theorem sphereCandidate_near_root (ray : Ray) (s : Sphere)
    (hunit : dot ray.direction ray.direction = 1) :
    (sphereCandidate ray s = none ↔
      dot ray.direction (s.center - ray.origin) < 0 ∨
      (0 ≤ dot ray.direction (s.center - ray.origin) ∧
        s.radius * s.radius <
          dot (s.center - ray.origin) (s.center - ray.origin) -
            dot ray.direction (s.center - ray.origin) *
              dot ray.direction (s.center - ray.origin))) ∧
    (∀ c, sphereCandidate ray s = some c →
      c = dot ray.direction (s.center - ray.origin) -
          Real.sqrt (s.radius * s.radius -
            (dot (s.center - ray.origin) (s.center - ray.origin) -
              dot ray.direction (s.center - ray.origin) *
                dot ray.direction (s.center - ray.origin))) ∧
      dot (ray.origin + c • ray.direction - s.center)
          (ray.origin + c • ray.direction - s.center) = s.radius * s.radius ∧
      ∀ t, dot (ray.origin + t • ray.direction - s.center)
            (ray.origin + t • ray.direction - s.center) = s.radius * s.radius →
          c ≤ t) := by
  constructor
  · simp only [sphereCandidate]
    split_ifs with h1 h2
    · simp only [eq_self_iff_true, true_iff]
      exact Or.inl h1
    · simp only [eq_self_iff_true, true_iff]
      exact Or.inr ⟨not_lt.mp h1, h2⟩
    · constructor
      · intro h; cases h
      · rintro (h | ⟨-, h⟩)
        · exact absurd h h1
        · exact absurd h h2
  · intro c hc
    obtain ⟨hdt, hd2, hceq⟩ := sphereCandidate_some ray s c hc
    refine ⟨hceq, ?_, ?_⟩
    · rw [ray_point_dist_sq ray s.center hunit c, hceq]
      have he2 : Real.sqrt (s.radius * s.radius -
          (dot (s.center - ray.origin) (s.center - ray.origin) -
            dot ray.direction (s.center - ray.origin) *
              dot ray.direction (s.center - ray.origin))) ^ 2 =
          s.radius * s.radius -
            (dot (s.center - ray.origin) (s.center - ray.origin) -
              dot ray.direction (s.center - ray.origin) *
                dot ray.direction (s.center - ray.origin)) :=
        Real.sq_sqrt (by linarith)
      linear_combination he2
    · intro t ht
      rw [ray_point_dist_sq ray s.center hunit t] at ht
      have he2 : Real.sqrt (s.radius * s.radius -
          (dot (s.center - ray.origin) (s.center - ray.origin) -
            dot ray.direction (s.center - ray.origin) *
              dot ray.direction (s.center - ray.origin))) ^ 2 =
          s.radius * s.radius -
            (dot (s.center - ray.origin) (s.center - ray.origin) -
              dot ray.direction (s.center - ray.origin) *
                dot ray.direction (s.center - ray.origin)) :=
        Real.sq_sqrt (by linarith)
      have hnn : 0 ≤ Real.sqrt (s.radius * s.radius -
          (dot (s.center - ray.origin) (s.center - ray.origin) -
            dot ray.direction (s.center - ray.origin) *
              dot ray.direction (s.center - ray.origin))) := Real.sqrt_nonneg _
      rw [hceq]
      nlinarith [sq_nonneg (t - dot ray.direction (s.center - ray.origin) +
        Real.sqrt (s.radius * s.radius -
          (dot (s.center - ray.origin) (s.center - ray.origin) -
            dot ray.direction (s.center - ray.origin) *
              dot ray.direction (s.center - ray.origin))))]

/-- Witness for C2 at a unit ray aimed at a concrete sphere. -/
theorem sphereCandidate_near_root_witness :
    dot (Ray.mk ⟨0, 0, 0⟩ ⟨0, 0, -1⟩).direction (Ray.mk ⟨0, 0, 0⟩ ⟨0, 0, -1⟩).direction = 1 ∧
    (∀ c, sphereCandidate ⟨⟨0, 0, 0⟩, ⟨0, 0, -1⟩⟩ ⟨1, ⟨0, 0, -4⟩⟩ = some c →
      c = dot (Ray.mk ⟨0, 0, 0⟩ ⟨0, 0, -1⟩).direction
            ((Sphere.mk 1 ⟨0, 0, -4⟩).center - (Ray.mk ⟨0, 0, 0⟩ ⟨0, 0, -1⟩).origin) -
          Real.sqrt ((1 : ℝ) * 1 -
            (dot ((Sphere.mk 1 ⟨0, 0, -4⟩).center - (Ray.mk ⟨0, 0, 0⟩ ⟨0, 0, -1⟩).origin)
                ((Sphere.mk 1 ⟨0, 0, -4⟩).center - (Ray.mk ⟨0, 0, 0⟩ ⟨0, 0, -1⟩).origin) -
              dot (Ray.mk ⟨0, 0, 0⟩ ⟨0, 0, -1⟩).direction
                  ((Sphere.mk 1 ⟨0, 0, -4⟩).center - (Ray.mk ⟨0, 0, 0⟩ ⟨0, 0, -1⟩).origin) *
                dot (Ray.mk ⟨0, 0, 0⟩ ⟨0, 0, -1⟩).direction
                  ((Sphere.mk 1 ⟨0, 0, -4⟩).center - (Ray.mk ⟨0, 0, 0⟩ ⟨0, 0, -1⟩).origin))) ∧
      dot ((Ray.mk ⟨0, 0, 0⟩ ⟨0, 0, -1⟩).origin + c • (Ray.mk ⟨0, 0, 0⟩ ⟨0, 0, -1⟩).direction -
            (Sphere.mk 1 ⟨0, 0, -4⟩).center)
          ((Ray.mk ⟨0, 0, 0⟩ ⟨0, 0, -1⟩).origin + c • (Ray.mk ⟨0, 0, 0⟩ ⟨0, 0, -1⟩).direction -
            (Sphere.mk 1 ⟨0, 0, -4⟩).center) = (1 : ℝ) * 1 ∧
      ∀ t, dot ((Ray.mk ⟨0, 0, 0⟩ ⟨0, 0, -1⟩).origin +
              t • (Ray.mk ⟨0, 0, 0⟩ ⟨0, 0, -1⟩).direction - (Sphere.mk 1 ⟨0, 0, -4⟩).center)
            ((Ray.mk ⟨0, 0, 0⟩ ⟨0, 0, -1⟩).origin +
              t • (Ray.mk ⟨0, 0, 0⟩ ⟨0, 0, -1⟩).direction - (Sphere.mk 1 ⟨0, 0, -4⟩).center) =
            (1 : ℝ) * 1 → c ≤ t) ∧
    sphereCandidate ⟨⟨0, 0, 0⟩, ⟨0, 0, -1⟩⟩ ⟨1, ⟨0, 0, -4⟩⟩ = some 3 := by
  have hu : dot (Ray.mk ⟨0, 0, 0⟩ ⟨0, 0, -1⟩).direction
      (Ray.mk ⟨0, 0, 0⟩ ⟨0, 0, -1⟩).direction = 1 := by norm_num [dot]
  refine ⟨hu, (sphereCandidate_near_root ⟨⟨0, 0, 0⟩, ⟨0, 0, -1⟩⟩ ⟨1, ⟨0, 0, -4⟩⟩ hu).2, ?_⟩
  norm_num [sphereCandidate, dot, Real.sqrt_one]

/-! ## Sign of the returned distance (C4) -/

/-- C4 as amended: whenever `trace` returns an intersection AND the ray origin
is strictly outside the returned sphere (nonnegative radius strictly smaller
than the distance from origin to center), the recorded distance is strictly
positive.  (For an origin inside or on a sphere the distance can be zero or
negative — see the counterexample.) -/
theorem trace_distance_pos (ray : Ray) (spheres : List Sphere) (inter : Intersection)
    (h : trace ray spheres = some inter)
    (hr : 0 ≤ (spheres.getD inter.sphere_index ⟨0, ⟨0, 0, 0⟩⟩).radius)
    (hout : (spheres.getD inter.sphere_index ⟨0, ⟨0, 0, 0⟩⟩).radius <
      length ((spheres.getD inter.sphere_index ⟨0, ⟨0, 0, 0⟩⟩).center - ray.origin)) :
    0 < inter.distance := by
  obtain ⟨hi, hcand, -, -, -⟩ := trace_some_spec ray spheres inter h
  rw [List.getD_eq_getElem _ _ hi] at hr hout
  obtain ⟨hdt, hd2, hceq⟩ := sphereCandidate_some ray spheres[inter.sphere_index]
    inter.distance hcand
  set s := spheres[inter.sphere_index] with hs
  set dt := dot ray.direction (s.center - ray.origin) with hdtv
  set ocsq := dot (s.center - ray.origin) (s.center - ray.origin) with hocsq
  have hr2lt : s.radius * s.radius < ocsq := by
    have h1 : s.radius < Real.sqrt (dot (s.center - ray.origin) (s.center - ray.origin)) := by
      simpa only [length] using hout
    rw [← hocsq] at h1
    have h2 := (Real.lt_sqrt hr).mp h1
    nlinarith [h2]
  have harg_nonneg : 0 ≤ s.radius * s.radius - (ocsq - dt * dt) := by linarith
  have harg_lt : s.radius * s.radius - (ocsq - dt * dt) < dt ^ 2 := by nlinarith
  have hsq : Real.sqrt (s.radius * s.radius - (ocsq - dt * dt)) < dt := by
    have h1 : Real.sqrt (s.radius * s.radius - (ocsq - dt * dt)) <
        Real.sqrt (dt ^ 2) := Real.sqrt_lt_sqrt harg_nonneg harg_lt
    rwa [Real.sqrt_sq hdt] at h1
  rw [hceq]
  linarith

/-- Counterexample to C4 as stated: a ray whose origin sits at a sphere's
center still passes the per-sphere test (`proj = 0`, `d2 = 0`), and `trace`
returns a strictly negative distance `-radius`. -/
theorem trace_distance_pos_cex :
    trace ⟨⟨0, 0, 0⟩, ⟨0, 0, -1⟩⟩ [⟨1, ⟨0, 0, 0⟩⟩] = some ⟨0, -1⟩ ∧
    ¬ (0 : ℝ) < -1 := by
  constructor
  · norm_num [trace, traceLoop, sphereCandidate, dot, sentinel, floatMax, Real.sqrt_one]
  · norm_num

/-- Witness for C4 at a concrete outside-origin hit. -/
theorem trace_distance_pos_witness :
    trace ⟨⟨0, 0, 0⟩, ⟨0, 0, -1⟩⟩ [⟨1, ⟨0, 0, -4⟩⟩] = some ⟨0, 3⟩ ∧
    (0 : ℝ) ≤ ([(⟨1, ⟨0, 0, -4⟩⟩ : Sphere)].getD 0 ⟨0, ⟨0, 0, 0⟩⟩).radius ∧
    ([(⟨1, ⟨0, 0, -4⟩⟩ : Sphere)].getD 0 ⟨0, ⟨0, 0, 0⟩⟩).radius <
      length (([(⟨1, ⟨0, 0, -4⟩⟩ : Sphere)].getD 0 ⟨0, ⟨0, 0, 0⟩⟩).center -
        (Ray.mk ⟨0, 0, 0⟩ ⟨0, 0, -1⟩).origin) ∧
    0 < (Intersection.mk 0 3).distance := by
  have he : trace ⟨⟨0, 0, 0⟩, ⟨0, 0, -1⟩⟩ [⟨1, ⟨0, 0, -4⟩⟩] = some ⟨0, 3⟩ := by
    norm_num [trace, traceLoop, sphereCandidate, dot, sentinel, floatMax, Real.sqrt_one]
  have h16 : Real.sqrt 16 = 4 := by
    rw [show (16 : ℝ) = 4 ^ 2 by norm_num, Real.sqrt_sq (by norm_num)]
  have hr : (0 : ℝ) ≤ ([(⟨1, ⟨0, 0, -4⟩⟩ : Sphere)].getD 0 ⟨0, ⟨0, 0, 0⟩⟩).radius := by
    norm_num
  have hout : ([(⟨1, ⟨0, 0, -4⟩⟩ : Sphere)].getD 0 ⟨0, ⟨0, 0, 0⟩⟩).radius <
      length (([(⟨1, ⟨0, 0, -4⟩⟩ : Sphere)].getD 0 ⟨0, ⟨0, 0, 0⟩⟩).center -
        (Ray.mk ⟨0, 0, 0⟩ ⟨0, 0, -1⟩).origin) := by
    norm_num [length, dot, h16]
  exact ⟨he, hr, hout, trace_distance_pos _ _ _ he hr hout⟩

/-! ## Rays that hit nothing (C7) -/

/-- `trace` returns `none` when every sphere is rejected. -/
theorem trace_eq_none_of_all_none (ray : Ray) (spheres : List Sphere)
    (h : ∀ m (hm : m < spheres.length), sphereCandidate ray spheres[m] = none) :
    trace ray spheres = none := by
  rcases traceLoop_spec ray spheres 0 ⟨sentinel, floatMax⟩ with ⟨heq, -⟩ |
    ⟨m, hm, d, hcd, -⟩
  · simp only [trace]
    rw [heq]
    simp
  · rw [h m hm] at hcd
    cases hcd

/-- C7: for a unit-direction ray that comes strictly farther than each
sphere's radius from its center at every nonnegative parameter (in particular,
vacuously, for the empty scene), `trace` returns no intersection and the
shader returns the background color, the zero vector. -/
theorem trace_miss_background (ray : Ray) (spheres : List Sphere)
    (hunit : dot ray.direction ray.direction = 1)
    (hmiss : ∀ s ∈ spheres, ∀ u : ℝ, 0 ≤ u →
      s.radius * s.radius <
        dot (ray.origin + u • ray.direction - s.center)
          (ray.origin + u • ray.direction - s.center)) :
    trace ray spheres = none ∧ ray_cast ray spheres = ⟨0, 0, 0⟩ := by
  have hnone : trace ray spheres = none := by
    apply trace_eq_none_of_all_none
    intro m hm
    set s := spheres[m] with hs
    have hmem : s ∈ spheres := by rw [hs]; exact List.getElem_mem hm
    simp only [sphereCandidate]
    split_ifs with h1 h2
    · rfl
    · rfl
    · exfalso
      apply h2
      have := hmiss s hmem (dot ray.direction (s.center - ray.origin)) (not_lt.mp h1)
      rw [ray_point_dist_sq ray s.center hunit] at this
      nlinarith [this]
  exact ⟨hnone, by simp [ray_cast, hnone]⟩

/-- Witness for C7 at the empty scene. -/
theorem trace_miss_background_witness :
    dot (Ray.mk ⟨0, 0, 0⟩ ⟨0, 0, -1⟩).direction (Ray.mk ⟨0, 0, 0⟩ ⟨0, 0, -1⟩).direction = 1 ∧
    trace ⟨⟨0, 0, 0⟩, ⟨0, 0, -1⟩⟩ ([] : List Sphere) = none ∧
    ray_cast ⟨⟨0, 0, 0⟩, ⟨0, 0, -1⟩⟩ ([] : List Sphere) = ⟨0, 0, 0⟩ := by
  have hu : dot (Ray.mk ⟨0, 0, 0⟩ ⟨0, 0, -1⟩).direction
      (Ray.mk ⟨0, 0, 0⟩ ⟨0, 0, -1⟩).direction = 1 := by norm_num [dot]
  exact ⟨hu, trace_miss_background ⟨⟨0, 0, 0⟩, ⟨0, 0, -1⟩⟩ [] hu (by intro s hs; cases hs)⟩

/-! ## Rays aimed straight at a sphere center (C8) -/

/-- C8 as amended: for a single-sphere scene, a ray whose origin is strictly
outside the sphere and whose direction is the normalization of
`center - origin` (it points directly at the center), `trace` hits the sphere
at exactly `distance_to_center - radius`, provided that value is strictly
below the `FLT_MAX` running-minimum initializer (otherwise the hit is
dropped — see the counterexample). -/
theorem trace_aimed_at_center (ray : Ray) (s : Sphere)
    (hr : 0 ≤ s.radius)
    (hdir : ray.direction = normalize (s.center - ray.origin))
    (hout : s.radius < length (s.center - ray.origin))
    (hfm : length (s.center - ray.origin) - s.radius < floatMax) :
    trace ray [s] = some ⟨0, length (s.center - ray.origin) - s.radius⟩ := by
  set oc := s.center - ray.origin with hoc
  set L := length oc with hL
  have hLpos : 0 < L := lt_of_le_of_lt hr hout
  have hocsq_nonneg : 0 ≤ dot oc oc := by
    have h1 := mul_self_nonneg oc.x
    have h2 := mul_self_nonneg oc.y
    have h3 := mul_self_nonneg oc.z
    simp only [dot]
    linarith
  have hLsq : L * L = dot oc oc := by
    rw [hL, length]
    exact Real.mul_self_sqrt hocsq_nonneg
  have hdt : dot ray.direction oc = L := by
    have hLsq' := hLsq
    simp only [dot] at hLsq'
    rw [hdir, normalize]
    simp only [dot, Vec3.smul_def, Vec3.mk_x, Vec3.mk_y, Vec3.mk_z]
    rw [← hL]
    field_simp
    linear_combination (-1 : ℝ) * hLsq'
  have hcand : sphereCandidate ray s = some (L - s.radius) := by
    simp only [sphereCandidate, ← hoc, hdt]
    rw [if_neg (not_lt.mpr (le_of_lt hLpos))]
    rw [if_neg (by rw [← hLsq]; nlinarith [mul_self_nonneg s.radius])]
    rw [← hLsq,
      show s.radius * s.radius - (L * L - L * L) = s.radius * s.radius from by ring,
      Real.sqrt_mul_self hr]
  simp only [trace, traceLoop, hcand, Intersection.mk_distance]
  rw [if_pos hfm]
  simp [sentinel]

/-- Witness for C8 at a concrete sphere straight ahead of the camera. -/
theorem trace_aimed_at_center_witness :
    (0 : ℝ) ≤ (Sphere.mk (1 : ℝ) ⟨0, 0, -4⟩).radius ∧
    (Ray.mk ⟨0, 0, 0⟩ ⟨0, 0, -1⟩).direction =
      normalize ((Sphere.mk (1 : ℝ) ⟨0, 0, -4⟩).center - (Ray.mk ⟨0, 0, 0⟩ ⟨0, 0, -1⟩).origin) ∧
    (Sphere.mk (1 : ℝ) ⟨0, 0, -4⟩).radius <
      length ((Sphere.mk (1 : ℝ) ⟨0, 0, -4⟩).center - (Ray.mk ⟨0, 0, 0⟩ ⟨0, 0, -1⟩).origin) ∧
    trace ⟨⟨0, 0, 0⟩, ⟨0, 0, -1⟩⟩ [⟨1, ⟨0, 0, -4⟩⟩] = some ⟨0, 3⟩ := by
  have h16 : Real.sqrt 16 = 4 := by
    rw [show (16 : ℝ) = 4 ^ 2 by norm_num, Real.sqrt_sq (by norm_num)]
  have hveq : (Sphere.mk (1 : ℝ) ⟨0, 0, -4⟩).center -
      (Ray.mk (⟨0, 0, 0⟩ : Vec3) ⟨0, 0, -1⟩).origin = ⟨0, 0, -4⟩ := by norm_num
  have hlen : length ((Sphere.mk (1 : ℝ) ⟨0, 0, -4⟩).center -
      (Ray.mk (⟨0, 0, 0⟩ : Vec3) ⟨0, 0, -1⟩).origin) = 4 := by
    rw [hveq]
    simp only [length, dot, Vec3.mk_x, Vec3.mk_y, Vec3.mk_z]
    norm_num [h16]
  have hdir : (Ray.mk (⟨0, 0, 0⟩ : Vec3) ⟨0, 0, -1⟩).direction =
      normalize ((Sphere.mk (1 : ℝ) ⟨0, 0, -4⟩).center -
        (Ray.mk (⟨0, 0, 0⟩ : Vec3) ⟨0, 0, -1⟩).origin) := by
    rw [normalize, hlen, hveq]
    norm_num
  have hout : (Sphere.mk (1 : ℝ) ⟨0, 0, -4⟩).radius <
      length ((Sphere.mk (1 : ℝ) ⟨0, 0, -4⟩).center -
        (Ray.mk (⟨0, 0, 0⟩ : Vec3) ⟨0, 0, -1⟩).origin) := by
    rw [hlen]; norm_num
  have hfm : length ((Sphere.mk (1 : ℝ) ⟨0, 0, -4⟩).center -
      (Ray.mk (⟨0, 0, 0⟩ : Vec3) ⟨0, 0, -1⟩).origin) -
      (Sphere.mk (1 : ℝ) ⟨0, 0, -4⟩).radius < floatMax := by
    rw [hlen]; norm_num [floatMax]
  have hres := trace_aimed_at_center ⟨⟨0, 0, 0⟩, ⟨0, 0, -1⟩⟩ ⟨1, ⟨0, 0, -4⟩⟩
    (by norm_num) hdir hout hfm
  rw [hlen] at hres
  norm_num at hres
  exact ⟨by norm_num, hdir, hout, hres⟩

/-- Counterexample to C8 as stated: a unit sphere directly ahead at center
depth `FLT_MAX + 1` (so the geometric hit distance is exactly `FLT_MAX`) is
aimed at dead-center from an outside origin, yet `trace` reports no
intersection, because the hit distance is not strictly below the `FLT_MAX`
running-minimum initializer. -/
theorem trace_aimed_at_center_cex :
    (Ray.mk ⟨0, 0, 0⟩ ⟨0, 0, -1⟩).direction =
      normalize ((Sphere.mk (1 : ℝ) ⟨0, 0, -(floatMax + 1)⟩).center -
        (Ray.mk ⟨0, 0, 0⟩ ⟨0, 0, -1⟩).origin) ∧
    (Sphere.mk (1 : ℝ) ⟨0, 0, -(floatMax + 1)⟩).radius <
      length ((Sphere.mk (1 : ℝ) ⟨0, 0, -(floatMax + 1)⟩).center -
        (Ray.mk ⟨0, 0, 0⟩ ⟨0, 0, -1⟩).origin) ∧
    trace ⟨⟨0, 0, 0⟩, ⟨0, 0, -1⟩⟩ [⟨1, ⟨0, 0, -(floatMax + 1)⟩⟩] = none := by
  have hM : (0 : ℝ) ≤ floatMax + 1 := by norm_num [floatMax]
  have hMne : (floatMax : ℝ) + 1 ≠ 0 := by norm_num [floatMax]
  have hveq : (Sphere.mk (1 : ℝ) ⟨0, 0, -(floatMax + 1)⟩).center -
      (Ray.mk (⟨0, 0, 0⟩ : Vec3) ⟨0, 0, -1⟩).origin = ⟨0, 0, -(floatMax + 1)⟩ := by
    norm_num
  have hlen : length ((Sphere.mk (1 : ℝ) ⟨0, 0, -(floatMax + 1)⟩).center -
      (Ray.mk (⟨0, 0, 0⟩ : Vec3) ⟨0, 0, -1⟩).origin) = floatMax + 1 := by
    rw [hveq]
    simp only [length, dot, Vec3.mk_x, Vec3.mk_y, Vec3.mk_z]
    rw [Real.sqrt_eq_iff_mul_self_eq (by nlinarith [sq_nonneg (floatMax + 1)]) hM]
    ring
  have hdir : (Ray.mk (⟨0, 0, 0⟩ : Vec3) ⟨0, 0, -1⟩).direction =
      normalize ((Sphere.mk (1 : ℝ) ⟨0, 0, -(floatMax + 1)⟩).center -
        (Ray.mk (⟨0, 0, 0⟩ : Vec3) ⟨0, 0, -1⟩).origin) := by
    rw [normalize, hlen, hveq]
    simp only [Vec3.smul_def, Vec3.mk_x, Vec3.mk_y, Vec3.mk_z, Vec3.mk.injEq]
    refine ⟨by norm_num, by norm_num, ?_⟩
    field_simp
  refine ⟨hdir, by rw [hlen]; norm_num [floatMax], ?_⟩
  norm_num [trace, traceLoop, sphereCandidate, dot, sentinel, floatMax, Real.sqrt_one]

/-! ## The checker pattern (C5) -/

/-- C5 as amended: the code truncates the band indices toward zero
(`static_cast<int>`), which agrees with `floor` whenever `u ≥ 0` (`v` is
always nonnegative): under that proviso the pattern is on exactly when
`floor(u*10) + floor(v*10)` is even, and the shading multiplier is `0.5` when
the pattern is on and `1.0` when it is off. -/
theorem pattern_parity (n : Vec3) (hu : 0 ≤ tex_u n) :
    (patternOn n ↔ Even (⌊tex_u n * 10⌋ + ⌊tex_v n * 10⌋)) ∧
    (patternOn n → patternFactor n = 0.5) ∧
    (¬ patternOn n → patternFactor n = 1) := by
  have hv : 0 ≤ tex_v n := by
    have := Real.arccos_nonneg n.y
    rw [tex_v]
    positivity
  have hu10 : 0 ≤ tex_u n * 10 := by positivity
  have hv10 : 0 ≤ tex_v n * 10 := by positivity
  have htu : toIntC (tex_u n * 10) = ⌊tex_u n * 10⌋ := if_pos hu10
  have htv : toIntC (tex_v n * 10) = ⌊tex_v n * 10⌋ := if_pos hv10
  have hfloor_u : 0 ≤ ⌊tex_u n * 10⌋ := Int.floor_nonneg.mpr hu10
  have hfloor_v : 0 ≤ ⌊tex_v n * 10⌋ := Int.floor_nonneg.mpr hv10
  refine ⟨?_, fun hp => if_pos hp, fun hp => by rw [patternFactor, if_neg hp]; norm_num⟩
  rw [patternOn, htu, htv,
    Int.tmod_eq_emod (by omega) (by omega), Int.even_iff]

/-- Witness for C5 at the unit normal `(1, 0, 0)` (where `atan2 = 0` and
`u = 0.5 ≥ 0`). -/
theorem pattern_parity_witness :
    (0 : ℝ) ≤ tex_u ⟨1, 0, 0⟩ ∧
    ((patternOn ⟨1, 0, 0⟩ ↔ Even (⌊tex_u ⟨1, 0, 0⟩ * 10⌋ + ⌊tex_v ⟨1, 0, 0⟩ * 10⌋)) ∧
     (patternOn ⟨1, 0, 0⟩ → patternFactor ⟨1, 0, 0⟩ = 0.5) ∧
     (¬ patternOn ⟨1, 0, 0⟩ → patternFactor ⟨1, 0, 0⟩ = 1)) := by
  have hu : (0 : ℝ) ≤ tex_u ⟨1, 0, 0⟩ := by
    rw [tex_u, atan2]
    norm_num [Real.arctan_zero]
  exact ⟨hu, pattern_parity ⟨1, 0, 0⟩ hu⟩

/-- Counterexample to C5 as stated: at the reachable unit normal `cexNormal`
the code's truncation-toward-zero gives band indices `0 + 5` (odd sum,
pattern off, multiplier `1.0`) while the claim's `floor` rule gives
`-1 + 5 = 4` (even sum, pattern on, multiplier `0.5`): `atan2` is slightly
below `-3.1415` there, so `u < 0` and `floor` differs from the cast. -/
theorem pattern_parity_cex :
    dot cexNormal cexNormal = 1 ∧
    ¬ (patternOn cexNormal ↔ Even (⌊tex_u cexNormal * 10⌋ + ⌊tex_v cexNormal * 10⌋)) := by
  set t : ℝ := 1 / 20000 with ht
  have htpos : 0 < t := by rw [ht]; norm_num
  have harg : (0 : ℝ) < 1 + t ^ 2 := by positivity
  set c : ℝ := Real.sqrt (1 + t ^ 2) with hc
  have hcpos : 0 < c := Real.sqrt_pos.mpr harg
  have hcc : c * c = 1 + t ^ 2 := Real.mul_self_sqrt (le_of_lt harg)
  have hx : cexNormal.x = -(1 / c) := rfl
  have hy : cexNormal.y = 0 := rfl
  have hz : cexNormal.z = -(t / c) := rfl
  have hxneg : cexNormal.x < 0 := by
    rw [hx]
    simp only [neg_neg, neg_lt, neg_zero]
    positivity
  have hzneg : cexNormal.z < 0 := by
    rw [hz]
    simp only [neg_lt, neg_zero]
    positivity
  -- arctan bounds
  have hat_pos : 0 < Real.arctan t := by
    have := Real.arctan_strictMono htpos
    rwa [Real.arctan_zero] at this
  have hat_lt : Real.arctan t < t := by
    have h1 := Real.lt_tan hat_pos (Real.arctan_lt_pi_div_two t)
    rwa [Real.tan_arctan] at h1
  have hpi_lo := Real.pi_gt_d6
  have hpi_hi := Real.pi_lt_d6
  -- the atan2 value
  have hatan : atan2 cexNormal.z cexNormal.x = Real.arctan t - Real.pi := by
    rw [atan2, if_neg (by rw [hx]; intro h; linarith [hxneg]), if_pos hxneg,
      if_neg (by rw [hz]; intro h; linarith [hzneg])]
    congr 2
    rw [hx, hz]
    field_simp
  -- u-band bounds
  have hu_eq : tex_u cexNormal = (1 + (Real.arctan t - Real.pi) / 3.1415) * 0.5 := by
    rw [tex_u, hatan]
  have hq_lt : (Real.arctan t - Real.pi) / 3.1415 < -1 := by
    rw [div_lt_iff₀ (by norm_num : (0 : ℝ) < 3.1415)]
    have : Real.arctan t < 1 / 20000 := by rw [← ht]; exact hat_lt
    linarith
  have hq_gt : (-1.2 : ℝ) < (Real.arctan t - Real.pi) / 3.1415 := by
    rw [lt_div_iff₀ (by norm_num : (0 : ℝ) < 3.1415)]
    linarith
  have hu10_neg : tex_u cexNormal * 10 < 0 := by rw [hu_eq]; nlinarith
  have hu10_gt : (-1 : ℝ) < tex_u cexNormal * 10 := by rw [hu_eq]; nlinarith
  have hfloor_u : ⌊tex_u cexNormal * 10⌋ = -1 := by
    rw [Int.floor_eq_iff]
    constructor
    · push_cast
      linarith
    · push_cast
      linarith
  have hceil_u : toIntC (tex_u cexNormal * 10) = 0 := by
    rw [toIntC, if_neg (not_le.mpr hu10_neg), Int.ceil_eq_zero_iff]
    exact ⟨hu10_gt, le_of_lt hu10_neg⟩
  -- v-band bounds
  have hv_eq : tex_v cexNormal = Real.pi / 2 / 3.1415 := by
    rw [tex_v, hy, Real.arccos_zero]
  have hv10_lo : (5 : ℝ) ≤ tex_v cexNormal * 10 := by
    rw [hv_eq, div_div, div_mul_eq_mul_div,
      le_div_iff₀ (by norm_num : (0 : ℝ) < 2 * 3.1415)]
    nlinarith [Real.pi_gt_d4]
  have hv10_hi : tex_v cexNormal * 10 < 6 := by
    rw [hv_eq, div_div, div_mul_eq_mul_div,
      div_lt_iff₀ (by norm_num : (0 : ℝ) < 2 * 3.1415)]
    nlinarith [Real.pi_lt_d6]
  have hfloor_v : ⌊tex_v cexNormal * 10⌋ = 5 := by
    rw [Int.floor_eq_iff]
    constructor
    · push_cast
      linarith
    · push_cast
      linarith
  have htv : toIntC (tex_v cexNormal * 10) = 5 := by
    rw [toIntC, if_pos (by linarith : (0 : ℝ) ≤ tex_v cexNormal * 10), hfloor_v]
  constructor
  · -- unit normal
    have key : ∀ a b : ℝ, a ≠ 0 → a * a = 1 + b ^ 2 →
        -(1 / a) * -(1 / a) + 0 * 0 + -(b / a) * -(b / a) = 1 := by
      intro a b ha hab
      field_simp
      linear_combination -hab
    simp only [cexNormal, dot, Vec3.mk_x, Vec3.mk_y, Vec3.mk_z]
    exact key _ _ (ne_of_gt (Real.sqrt_pos.mpr (by norm_num)))
      (Real.mul_self_sqrt (by norm_num))
  · -- the two parities disagree
    rw [patternOn, hceil_u, htv, hfloor_u, hfloor_v]
    intro hiff
    have h5 : ¬ Int.tmod (0 + 5) 2 = 0 := by decide
    have h4 : Even ((-1 : ℤ) + 5) := by decide
    exact h5 (hiff.mpr h4)

/-! ## The frame renderer (C6) -/

theorem renderWrite_length (spheres : List Sphere) (w h : ℕ) (buf : List Vec3)
    (p : ℕ × ℕ) : (renderWrite spheres w h buf p).length = buf.length := by
  rw [renderWrite, List.length_set]

theorem foldl_write_length (spheres : List Sphere) (w h : ℕ) :
    ∀ (order : List (ℕ × ℕ)) (buf : List Vec3),
      (order.foldl (renderWrite spheres w h) buf).length = buf.length := by
  intro order
  induction order with
  | nil => intro buf; rfl
  | cons q rest ih =>
    intro buf
    rw [List.foldl_cons, ih, renderWrite_length]

theorem mem_pixelList (w h : ℕ) (q : ℕ × ℕ) :
    q ∈ pixelList w h ↔ q.1 < w ∧ q.2 < h := by
  rcases q with ⟨a, b⟩
  simp only [pixelList, List.mem_flatMap, List.mem_map, List.mem_range, Prod.mk.injEq]
  constructor
  · rintro ⟨y, hy, x, hx, rfl, rfl⟩
    exact ⟨hx, hy⟩
  · rintro ⟨ha, hb⟩
    exact ⟨b, hb, a, ha, rfl, rfl⟩

/-- After folding the buffer writes over any list of in-bounds pixels, the
slot of pixel `(x, y)` holds that pixel's ray-cast color if `(x, y)` was
visited, and is untouched otherwise. -/
theorem foldl_write_getElem (spheres : List Sphere) (w h : ℕ) :
    ∀ (order : List (ℕ × ℕ)) (buf : List Vec3),
      buf.length = w * h → (∀ q ∈ order, q.1 < w ∧ q.2 < h) →
      ∀ x y, x < w → y < h →
        (order.foldl (renderWrite spheres w h) buf)[y * w + x]? =
          if (x, y) ∈ order then some (ray_cast (pixelRay w h x y) spheres)
          else buf[y * w + x]? := by
  intro order
  induction order with
  | nil =>
    intro buf hlen hbound x y hx hy
    simp
  | cons q rest ih =>
    intro buf hlen hbound x y hx hy
    have hidx : y * w + x < w * h := by
      have h1 : y * w + x < (y + 1) * w := by
        have : (y + 1) * w = y * w + w := by ring
        omega
      have h2 : (y + 1) * w ≤ h * w := Nat.mul_le_mul_right w (by omega)
      calc y * w + x < (y + 1) * w := h1
        _ ≤ h * w := h2
        _ = w * h := Nat.mul_comm h w
    rw [List.foldl_cons,
      ih (renderWrite spheres w h buf q) (by rw [renderWrite_length]; exact hlen)
        (fun r hr => hbound r (List.mem_cons_of_mem _ hr)) x y hx hy]
    by_cases hmem : (x, y) ∈ rest
    · simp [hmem, List.mem_cons]
    · obtain ⟨hqw, hqh⟩ := hbound q (List.mem_cons_self q rest)
      by_cases heq : (x, y) = q
      · have hq1 : q.1 = x := by rw [← heq]
        have hq2 : q.2 = y := by rw [← heq]
        rw [if_neg hmem, renderWrite, hq1, hq2,
          List.getElem?_set_self (by rw [hlen]; exact hidx)]
        simp [List.mem_cons, heq]
      · have hwpos : 0 < w := by omega
        have hne : q.2 * w + q.1 ≠ y * w + x := by
          intro hcontra
          apply heq
          have hmod : (q.1 + q.2 * w) % w = (x + y * w) % w := by
            rw [show q.1 + q.2 * w = q.2 * w + q.1 from by omega,
              show x + y * w = y * w + x from by omega, hcontra]
          rw [Nat.add_mul_mod_self_right, Nat.add_mul_mod_self_right,
            Nat.mod_eq_of_lt hqw, Nat.mod_eq_of_lt hx] at hmod
          have hdiv : (q.1 + q.2 * w) / w = (x + y * w) / w := by
            rw [show q.1 + q.2 * w = q.2 * w + q.1 from by omega,
              show x + y * w = y * w + x from by omega, hcontra]
          rw [Nat.add_mul_div_right _ _ hwpos, Nat.add_mul_div_right _ _ hwpos,
            Nat.div_eq_of_lt hqw, Nat.div_eq_of_lt hx] at hdiv
          have : (x, y) = (q.1, q.2) := by
            rw [Prod.mk.injEq]
            omega
          rw [this]
        rw [if_neg hmem, renderWrite, List.getElem?_set_ne hne]
        simp [List.mem_cons, heq, hmem]

/-- C6: for any evaluation order that is a permutation of the pixel grid, the
written buffer is the same; it has exactly `w*h` entries; and the entry at
row-major index `y*w + x` is the shader applied to that pixel's camera ray
(origin at the world origin, the direction formula of `main.cpp:112-115`). -/
theorem render_pixels (spheres : List Sphere) (w h : ℕ) (order : List (ℕ × ℕ))
    (hperm : order.Perm (pixelList w h)) :
    order.foldl (renderWrite spheres w h) (List.replicate (w * h) ⟨0, 0, 0⟩) =
      render spheres w h ∧
    (render spheres w h).length = w * h ∧
    (∀ x y, x < w → y < h →
      (render spheres w h)[y * w + x]? =
        some (ray_cast (pixelRay w h x y) spheres)) := by
  have hlen0 : (List.replicate (w * h) (⟨0, 0, 0⟩ : Vec3)).length = w * h :=
    List.length_replicate _ _
  have hchar : ∀ (o : List (ℕ × ℕ)), o.Perm (pixelList w h) →
      ∀ x y, x < w → y < h →
        (o.foldl (renderWrite spheres w h) (List.replicate (w * h) ⟨0, 0, 0⟩))[y * w + x]? =
          some (ray_cast (pixelRay w h x y) spheres) := by
    intro o ho x y hx hy
    have hbound : ∀ q ∈ o, q.1 < w ∧ q.2 < h := by
      intro q hq
      exact (mem_pixelList w h q).mp (ho.mem_iff.mp hq)
    rw [foldl_write_getElem spheres w h o _ hlen0 hbound x y hx hy,
      if_pos (ho.mem_iff.mpr ((mem_pixelList w h (x, y)).mpr ⟨hx, hy⟩))]
  have hlenf : ∀ (o : List (ℕ × ℕ)),
      (o.foldl (renderWrite spheres w h) (List.replicate (w * h) ⟨0, 0, 0⟩)).length = w * h := by
    intro o
    rw [foldl_write_length, hlen0]
  have hrender : ∀ x y, x < w → y < h →
      (render spheres w h)[y * w + x]? = some (ray_cast (pixelRay w h x y) spheres) :=
    hchar (pixelList w h) (List.Perm.refl _)
  refine ⟨?_, hlenf _, hrender⟩
  apply List.ext_getElem?
  intro i
  by_cases hi : i < w * h
  · have hwpos : 0 < w := by
      rcases Nat.eq_zero_or_pos w with hw | hw
      · rw [hw] at hi; omega
      · exact hw
    have hx : i % w < w := Nat.mod_lt i hwpos
    have hy : i / w < h := by
      rw [Nat.div_lt_iff_lt_mul hwpos, Nat.mul_comm h w]
      exact hi
    have hidx : (i / w) * w + i % w = i := by
      rw [Nat.mul_comm]
      exact Nat.div_add_mod i w
    rw [← hidx, hchar order hperm (i % w) (i / w) hx hy,
      hrender (i % w) (i / w) hx hy]
  · have h1 : (render spheres w h).length ≤ i := by
      rw [render, foldl_write_length, hlen0]
      omega
    have h2 : (order.foldl (renderWrite spheres w h)
        (List.replicate (w * h) ⟨0, 0, 0⟩)).length ≤ i := by
      rw [foldl_write_length, hlen0]
      omega
    rw [List.getElem?_eq_none h2, List.getElem?_eq_none h1]

/-- Witness for C6 at a 1×1 grid with the empty scene. -/
theorem render_pixels_witness :
    [((0 : ℕ), (0 : ℕ))].Perm (pixelList 1 1) ∧
    ([((0 : ℕ), (0 : ℕ))].foldl (renderWrite [] 1 1)
        (List.replicate (1 * 1) ⟨0, 0, 0⟩) = render [] 1 1 ∧
      (render [] 1 1).length = 1 * 1 ∧
      (∀ x y, x < 1 → y < 1 →
        (render [] 1 1)[y * 1 + x]? = some (ray_cast (pixelRay 1 1 x y) []))) := by
  have hperm : [((0 : ℕ), (0 : ℕ))].Perm (pixelList 1 1) := by
    have hpl : pixelList 1 1 = [((0 : ℕ), (0 : ℕ))] := rfl
    rw [hpl]
  exact ⟨hperm, render_pixels [] 1 1 [((0 : ℕ), (0 : ℕ))] hperm⟩

/-! ## The shading branches (C3) and nonnegativity (C10) -/

/-- C3: for a ray with a nearest intersection, if the shadow ray cast from
the hit point in direction `-lightDir` hits any sphere the shader returns
`ambient * (0.5 if pattern-on else 1.0)` with zero diffuse and specular
contribution; otherwise it returns
`(ambient + max(0, dot(normal, -lightDir)) * 0.8) * (0.5 if pattern-on else 1.0)
 + specular`, with `specular = max(0, dot(reflect(dir, normal), -lightDir))^32 * 0.5`
added after the pattern modulation (so specular is never tinted). -/
theorem ray_cast_shade (ray : Ray) (spheres : List Sphere) (inter : Intersection)
    (point normal : Vec3)
    (h : trace ray spheres = some inter)
    (hpt : point = ray.origin + inter.distance • ray.direction)
    (hn : normal = normalize (point -
      (spheres.getD inter.sphere_index ⟨0, ⟨0, 0, 0⟩⟩).center)) :
    (trace ⟨point, -lightDir⟩ spheres ≠ none →
      ray_cast ray spheres =
        ⟨0.1 * patternFactor normal, 0.1 * patternFactor normal,
         0.1 * patternFactor normal⟩) ∧
    (trace ⟨point, -lightDir⟩ spheres = none →
      ray_cast ray spheres =
        ⟨(0.1 + max 0 (dot normal (-lightDir)) * 0.8) * patternFactor normal +
           (max 0 (dot (reflect ray.direction normal) (-lightDir))) ^ 32 * 0.5,
         (0.1 + max 0 (dot normal (-lightDir)) * 0.8) * patternFactor normal +
           (max 0 (dot (reflect ray.direction normal) (-lightDir))) ^ 32 * 0.5,
         (0.1 + max 0 (dot normal (-lightDir)) * 0.8) * patternFactor normal +
           (max 0 (dot (reflect ray.direction normal) (-lightDir))) ^ 32 * 0.5⟩) := by
  subst hpt
  subst hn
  constructor
  · intro hsh
    rcases ho : trace ⟨ray.origin + inter.distance • ray.direction, -lightDir⟩ spheres
      with _ | si
    · exact absurd ho hsh
    · simp only [ray_cast, h, ho]
      simp only [ambient, Vec3.smul_def, Vec3.mk_x, Vec3.mk_y, Vec3.mk_z]
      congr 1 <;> ring
  · intro ho
    simp only [ray_cast, h, ho]
    simp only [ambient, addScalar, Vec3.smul_def, Vec3.mk_x, Vec3.mk_y, Vec3.mk_z]
    congr 1 <;> ring

/-- Witness for C3 at a concrete hit (hit point `(0,0,-3)`, surface normal
`(0,0,1)`). -/
theorem ray_cast_shade_witness :
    trace ⟨⟨0, 0, 0⟩, ⟨0, 0, -1⟩⟩ [⟨1, ⟨0, 0, -4⟩⟩] = some ⟨0, 3⟩ ∧
    ((trace ⟨⟨0, 0, -3⟩, -lightDir⟩ [⟨1, ⟨0, 0, -4⟩⟩] ≠ none →
      ray_cast ⟨⟨0, 0, 0⟩, ⟨0, 0, -1⟩⟩ [⟨1, ⟨0, 0, -4⟩⟩] =
        ⟨0.1 * patternFactor ⟨0, 0, 1⟩, 0.1 * patternFactor ⟨0, 0, 1⟩,
         0.1 * patternFactor ⟨0, 0, 1⟩⟩) ∧
     (trace ⟨⟨0, 0, -3⟩, -lightDir⟩ [⟨1, ⟨0, 0, -4⟩⟩] = none →
      ray_cast ⟨⟨0, 0, 0⟩, ⟨0, 0, -1⟩⟩ [⟨1, ⟨0, 0, -4⟩⟩] =
        ⟨(0.1 + max 0 (dot ⟨0, 0, 1⟩ (-lightDir)) * 0.8) * patternFactor ⟨0, 0, 1⟩ +
           (max 0 (dot (reflect (⟨0, 0, -1⟩ : Vec3) ⟨0, 0, 1⟩) (-lightDir))) ^ 32 * 0.5,
         (0.1 + max 0 (dot ⟨0, 0, 1⟩ (-lightDir)) * 0.8) * patternFactor ⟨0, 0, 1⟩ +
           (max 0 (dot (reflect (⟨0, 0, -1⟩ : Vec3) ⟨0, 0, 1⟩) (-lightDir))) ^ 32 * 0.5,
         (0.1 + max 0 (dot ⟨0, 0, 1⟩ (-lightDir)) * 0.8) * patternFactor ⟨0, 0, 1⟩ +
           (max 0 (dot (reflect (⟨0, 0, -1⟩ : Vec3) ⟨0, 0, 1⟩) (-lightDir))) ^ 32 * 0.5⟩)) := by
  have he : trace ⟨⟨0, 0, 0⟩, ⟨0, 0, -1⟩⟩ [⟨1, ⟨0, 0, -4⟩⟩] = some ⟨0, 3⟩ := by
    norm_num [trace, traceLoop, sphereCandidate, dot, sentinel, floatMax, Real.sqrt_one]
  have hpt : (⟨0, 0, -3⟩ : Vec3) =
      (Ray.mk (⟨0, 0, 0⟩ : Vec3) ⟨0, 0, -1⟩).origin +
        (Intersection.mk 0 3).distance • (Ray.mk (⟨0, 0, 0⟩ : Vec3) ⟨0, 0, -1⟩).direction := by
    norm_num
  have hn : (⟨0, 0, 1⟩ : Vec3) = normalize ((⟨0, 0, -3⟩ : Vec3) -
      ([(⟨1, ⟨0, 0, -4⟩⟩ : Sphere)].getD (Intersection.mk 0 3).sphere_index
        ⟨0, ⟨0, 0, 0⟩⟩).center) := by
    norm_num [List.getD, normalize, length, dot, Real.sqrt_one]
  exact ⟨he, ray_cast_shade _ _ _ _ _ he hpt hn⟩

theorem Vec3.smul_x (r : ℝ) (v : Vec3) : (r • v).x = r * v.x := rfl

theorem Vec3.smul_y (r : ℝ) (v : Vec3) : (r • v).y = r * v.y := rfl

theorem Vec3.smul_z (r : ℝ) (v : Vec3) : (r • v).z = r * v.z := rfl

/-- The pattern factor is `0.5` or `1.0`, hence strictly positive. -/
theorem patternFactor_pos (n : Vec3) : 0 < patternFactor n := by
  rw [patternFactor]
  split_ifs <;> norm_num

/-- C10: every channel of the shader's output color is nonnegative: the
background is zero, the shadowed branch is a positive multiple of the `0.1`
ambient, and in the lit branch the diffuse and specular terms are clamped
below by zero before being added. -/
theorem ray_cast_nonneg (ray : Ray) (spheres : List Sphere) :
    0 ≤ (ray_cast ray spheres).x ∧ 0 ≤ (ray_cast ray spheres).y ∧
    0 ≤ (ray_cast ray spheres).z := by
  rcases h : trace ray spheres with _ | inter
  · simp only [ray_cast, h]
    norm_num
  · rcases h2 : trace ⟨ray.origin + inter.distance • ray.direction, -lightDir⟩ spheres
      with _ | si
    · -- lit branch
      have hp := patternFactor_pos (normalize
        (ray.origin + inter.distance • ray.direction -
          (spheres.getD inter.sphere_index ⟨0, ⟨0, 0, 0⟩⟩).center))
      have hd : (0 : ℝ) ≤ max 0 (dot (normalize
          (ray.origin + inter.distance • ray.direction -
            (spheres.getD inter.sphere_index ⟨0, ⟨0, 0, 0⟩⟩).center)) (-lightDir)) :=
        le_max_left 0 _
      have hs : (0 : ℝ) ≤ (max 0 (dot (reflect ray.direction (normalize
          (ray.origin + inter.distance • ray.direction -
            (spheres.getD inter.sphere_index ⟨0, ⟨0, 0, 0⟩⟩).center))) (-lightDir))) ^ 32 :=
        pow_nonneg (le_max_left 0 _) 32
      simp only [ray_cast, h, h2]
      refine ⟨?_, ?_, ?_⟩ <;>
        · simp only [addScalar, ambient, Vec3.smul_x, Vec3.smul_y, Vec3.smul_z,
            Vec3.mk_x, Vec3.mk_y, Vec3.mk_z]
          nlinarith [hp, hd, hs]
    · -- shadowed branch
      have hp := patternFactor_pos (normalize
        (ray.origin + inter.distance • ray.direction -
          (spheres.getD inter.sphere_index ⟨0, ⟨0, 0, 0⟩⟩).center))
      simp only [ray_cast, h, h2]
      refine ⟨?_, ?_, ?_⟩ <;>
        · simp only [ambient, Vec3.smul_x, Vec3.smul_y, Vec3.smul_z,
            Vec3.mk_x, Vec3.mk_y, Vec3.mk_z]
          nlinarith [hp]

end RayTracer
